import Mathlib

/-!
Verification of the RexxFunctions repository (PythonTools/RexxFunctions.py,
PythonTools/RexxFunctions_old2.py, PythonTools/linein.py) against its
natural-language specification.

The Python code is shallowly embedded:
* A Python dict is an insertion-ordered association list; assignment to an
  absent key appends, assignment to a present key updates in place.
* The filesystem is an association list from (already canonicalized) path
  strings to raw file contents.  `Path(..).absolute()` depends on the process
  working directory and is outside the model: the embedded functions take the
  canonical path directly.  A present entry models an existing regular
  readable file; an absent entry models a path that does not exist (the
  `exists` and `is_file` checks of the source both fall to the same
  FILE_NOT_FOUND branch, so they are merged).  Permission errors and other
  OS-level exceptions are not modelled.
* Python text-file iteration yields each line with its trailing newline kept
  (the last chunk is yielded without one when the file does not end in a
  newline); `str.rstrip('\n')` removes every trailing newline character.
* `sys.exit(n)` is modelled by an `Outcome.exit n` value; diagnostic `print`
  calls are collected into a message list.
-/

/-- Lookup in an insertion-ordered association list (Python dict read). -/
def lookupA {α : Type} : List (String × α) → String → Option α
  | [], _ => none
  | (k, v) :: rest, key => if k = key then some v else lookupA rest key

/-- Key-membership test for the association list (Python `key in dict`). -/
def containsA {α : Type} (t : List (String × α)) (key : String) : Bool :=
  (lookupA t key).isSome

/-- Python dict assignment `d[k] = v`: update in place when the key is
present, append otherwise. -/
def setA {α : Type} (t : List (String × α)) (key : String) (v : α) :
    List (String × α) :=
  if containsA t key then
    t.map (fun p => if p.1 = key then (key, v) else p)
  else
    t ++ [(key, v)]

/-- `if key not in d: d[key] = 0` specialised to an arbitrary default. -/
def ensureKey {α : Type} (t : List (String × α)) (key : String) (v : α) :
    List (String × α) :=
  if containsA t key then t else t ++ [(key, v)]

/-- Python dict entry deletion (used for `unlink` on the filesystem map). -/
def removeA {α : Type} (t : List (String × α)) (key : String) :
    List (String × α) :=
  t.filter (fun p => ¬ p.1 = key)

/-- Helper for `pyLines`: walks the character list accumulating the current
line (reversed); a newline closes the line and keeps the terminator, and a
final chunk without a newline is yielded only when nonempty. -/
def pyLinesAux : List Char → List Char → List (List Char)
  | [], acc => if acc = [] then [] else [acc.reverse]
  | c :: rest, acc =>
      if c = '\n' then (acc.reverse ++ ['\n']) :: pyLinesAux rest []
      else pyLinesAux rest (c :: acc)

/-- The sequence of lines Python file iteration yields for a text file with
the given raw contents: each line keeps its trailing newline, and a trailing
chunk with no newline is yielded as-is. -/
def pyLines (s : String) : List String :=
  (pyLinesAux s.data []).map (fun l => ⟨l⟩)

/-- Python `str.rstrip('\n')`: remove every trailing newline character. -/
def rstripNL (s : String) : String :=
  ⟨(s.data.reverse.dropWhile (fun c => c = '\n')).reverse⟩

/-- Normalize a Python slice index against a length: negative indices count
from the end, then the result is clamped into [0, n]. -/
def pyIdx (n : Nat) (i : Int) : Nat :=
  let j : Int := if i < 0 then i + n else i
  (min j (n : Int)).toNat

/-- Python `s[:b]`. -/
def pySliceTo (s : String) (b : Int) : String :=
  ⟨s.data.take (pyIdx s.data.length b)⟩

/-- Python `s[a:]`. -/
def pySliceFrom (s : String) (a : Int) : String :=
  ⟨s.data.drop (pyIdx s.data.length a)⟩

/-- Python `s[a:b]`. -/
def pySlice (s : String) (a b : Int) : String :=
  ⟨(s.data.take (pyIdx s.data.length b)).drop (pyIdx s.data.length a)⟩

/-- Python truthiness of an optional integer argument (`if length:`):
`None` and `0` are falsy, every other integer is truthy. -/
def pyTruthyInt : Option Int → Bool
  | none => false
  | some n => n ≠ 0

/-- The `for current_line, content in enumerate(file, 1): if current_line ==
target_line: ...` loop: returns the 1-based index and content of the line
whose index equals the target, `none` when the loop exhausts the file. -/
def scanLoop (target : Int) : List String → Nat → Option (Nat × String)
  | [], _ => none
  | l :: rest, idx =>
      if (idx : Int) = target then some (idx, l) else scanLoop target rest (idx + 1)

namespace RexxFunctions

/-- Sentinel returned when the target path does not exist / is not a file. -/
def FILE_NOT_FOUND : Nat := 0xEEEEEEEE

/-- Sentinel returned when the requested line is past the end of the file. -/
def END_OF_FILE : Nat := 0xFFFFFFFF

/-- Construction-time switches of `RexxFunctions.__init__`. -/
structure Config where
  exit_on_error : Bool
  verbose : Bool
deriving DecidableEq, Repr

/-- The mutable per-instance state: the cursor table `_file_positions` and
`next_record`. -/
structure St where
  file_positions : List (String × Nat)
  next_record : Nat
deriving DecidableEq, Repr

/-- Result of a `linein` call that returns (rather than exiting): a line's
content, or one of the two numeric sentinels. -/
inductive RRes where
  | line (content : String)
  | eof
  | notFound
deriving DecidableEq, Repr

/-- A call either returns a value or terminates the process via `sys.exit`. -/
inductive Outcome (α : Type) where
  | ret (a : α)
  | exit (code : Nat)
deriving DecidableEq, Repr

/-- Shallow embedding of `RexxFunctions.linein` (RexxFunctions.py lines
22-65).  Returns the outcome, the state after the call, and the diagnostic
messages printed to stderr. -/
def linein (cfg : Config) (st : St) (fs : List (String × String))
    (file_path : String) (line_number : Option Int) (exit_on_eof : Bool) :
    Outcome RRes × St × List String :=
  match lookupA fs file_path with
  | none =>
      let msgs := if cfg.verbose then ["File does not exist: " ++ file_path] else []
      if cfg.exit_on_error then (.exit 1, st, msgs) else (.ret .notFound, st, msgs)
  | some content =>
      let file_key := file_path
      let t1 := ensureKey st.file_positions file_key 0
      let target_line : Int :=
        match line_number with
        | none => (((lookupA t1 file_key).getD 0 : Nat) : Int) + 1
        | some k => k
      match scanLoop target_line (pyLines content) 1 with
      | some (current_line, c) =>
          (.ret (.line (rstripNL c)),
           { file_positions := setA t1 file_key current_line,
             next_record := current_line }, [])
      | none =>
          let t2 :=
            match line_number with
            | none => setA t1 file_key 0
            | some _ => t1
          if exit_on_eof && cfg.exit_on_error then
            (.exit 0, { st with file_positions := t2 }, [])
          else
            (.ret .eof, { st with file_positions := t2 }, [])

/-- Shallow embedding of `RexxFunctions.lineout` (RexxFunctions.py lines
106-118).  `ro` lists the paths that cannot be opened for writing (the
`except` branch). -/
def lineout (cfg : Config) (fs : List (String × String)) (ro : List String)
    (file_path string : String) (append : Bool) :
    Outcome Nat × List (String × String) × List String :=
  if ro.contains file_path then
    let msgs := if cfg.verbose then ["Error writing to file " ++ file_path] else []
    if cfg.exit_on_error then (.exit 1, fs, msgs) else (.ret 1, fs, msgs)
  else
    let old := if append then (lookupA fs file_path).getD "" else ""
    (.ret 0, setA fs file_path (old ++ string ++ "\n"), [])

/-- Shallow embedding of `RexxFunctions.rm` (RexxFunctions.py lines 83-104).
`ro` lists the paths whose removal raises (the `except` branch). -/
def rm (cfg : Config) (fs : List (String × String)) (ro : List String)
    (file_path : String) :
    Outcome Nat × List (String × String) × List String :=
  match lookupA fs file_path with
  | none =>
      let msgs :=
        if cfg.verbose then ["File does not exist (not deleted): " ++ file_path] else []
      (.ret FILE_NOT_FOUND, fs, msgs)
  | some _ =>
      if ro.contains file_path then
        let msgs := if cfg.verbose then ["Error deleting file " ++ file_path] else []
        if cfg.exit_on_error then (.exit 1, fs, msgs) else (.ret 1, fs, msgs)
      else
        (.ret 0, removeA fs file_path,
         if cfg.verbose then ["File successfully deleted: " ++ file_path] else [])

/-- Shallow embedding of `RexxFunctions.substr` (RexxFunctions.py lines
134-140).  `if length:` is Python truthiness, so an explicit 0 takes the
no-length branch. -/
def substr (string : String) (start : Int) (length : Option Int) :
    Except String String :=
  if start < 1 then .error "Start position must be >= 1"
  else if pyTruthyInt length then
    .ok (pySlice string (start - 1) (start - 1 + length.getD 0))
  else
    .ok (pySliceFrom string (start - 1))

/-- Shallow embedding of `RexxFunctions.delstr` (RexxFunctions.py lines
201-205).  `if length` is Python truthiness, so an explicit 0 yields the
empty tail, deleting to the end. -/
def delstr (string : String) (start : Int) (length : Option Int) :
    Except String String :=
  if start < 1 then .error "Start position must be >= 1"
  else
    .ok (pySliceTo string (start - 1) ++
      (if pyTruthyInt length then pySliceFrom string (start - 1 + length.getD 0) else ""))

/-- Shallow embedding of `RexxFunctions.insert` (RexxFunctions.py lines
237-241): positions below 1 are clamped to 1, then the new string is placed
before the 1-based position. -/
def insert (new_str original_str : String) (position : Int) : String :=
  let position := if position < 1 then 1 else position
  pySliceTo original_str (position - 1) ++ new_str ++
    pySliceFrom original_str (position - 1)

end RexxFunctions

namespace RexxFunctionsOld2

/-- Result of the older `linein` (RexxFunctions_old2.py lines 18-59 and the
identical fragment linein.py): a line, one of the sentinels, or an uncaught
`ValueError` raised for an explicit line number below 1. -/
inductive RRes where
  | line (content : String)
  | eof
  | notFound
  | valueError
deriving DecidableEq, Repr

/-- Shallow embedding of the older `RexxFunctions.linein`
(RexxFunctions_old2.py lines 18-59; linein.py lines 5-46 is the same
function body).  The key is the raw `str(file_path)` (no canonicalization);
position tracking is initialized, and for sequential reads incremented,
before the file is opened, so a sequential read of a missing file still
advances the stored cursor.  The `FileNotFoundError` handler prints
unconditionally and returns the sentinel. -/
def linein (t : List (String × Nat)) (fs : List (String × String))
    (file_path : String) (line_number : Option Int) :
    RRes × List (String × Nat) × List String :=
  let t1 := ensureKey t file_path 0
  match line_number with
  | none =>
      let read_line : Int := (((lookupA t1 file_path).getD 0 : Nat) : Int) + 1
      let t2 := setA t1 file_path ((lookupA t1 file_path).getD 0 + 1)
      match lookupA fs file_path with
      | none => (.notFound, t2, ["File does not exist: " ++ file_path])
      | some content =>
          match scanLoop read_line (pyLines content) 1 with
          | some (_, l) => (.line (rstripNL l), t2, [])
          | none => (.eof, setA t2 file_path 0, [])
  | some k =>
      if k < 1 then (.valueError, t1, [])
      else
        match lookupA fs file_path with
        | none => (.notFound, t1, ["File does not exist: " ++ file_path])
        | some content =>
            match scanLoop k (pyLines content) 1 with
            | some (_, l) => (.line (rstripNL l), t1, [])
            | none => (.eof, t1, [])

end RexxFunctionsOld2

/-! ### Association-list lemmas -/

theorem lookupA_cons_self {α : Type} (k : String) (v : α) (t : List (String × α)) :
    lookupA ((k, v) :: t) k = some v := by
  simp [lookupA]

theorem lookupA_append_some {α : Type} {t : List (String × α)} {k : String} {v : α}
    (u : List (String × α)) (h : lookupA t k = some v) :
    lookupA (t ++ u) k = some v := by
  induction t with
  | nil => simp [lookupA] at h
  | cons hd tl ih =>
      obtain ⟨k1, v1⟩ := hd
      by_cases hk : k1 = k
      · simp [lookupA, hk] at h ⊢
        exact h
      · simp [lookupA, hk] at h ⊢
        exact ih h

theorem lookupA_append_none {α : Type} {t : List (String × α)} {k : String}
    (u : List (String × α)) (h : lookupA t k = none) :
    lookupA (t ++ u) k = lookupA u k := by
  induction t with
  | nil => simp [lookupA]
  | cons hd tl ih =>
      obtain ⟨k1, v1⟩ := hd
      by_cases hk : k1 = k
      · simp [lookupA, hk] at h
      · simp [lookupA, hk] at h ⊢
        exact ih h

theorem lookupA_ensureKey_self {α : Type} (t : List (String × α)) (k : String) (v : α) :
    lookupA (ensureKey t k v) k = some ((lookupA t k).getD v) := by
  unfold ensureKey containsA
  cases h : lookupA t k with
  | none =>
      simp [h]
      rw [lookupA_append_none _ h]
      simp [lookupA]
  | some w => simp [h]

theorem map_set_cons {α : Type} (k : String) (v : α) (k1 : String) (v1 : α)
    (tl : List (String × α)) :
    ((k1, v1) :: tl).map (fun p => if p.1 = k then (k, v) else p)
      = (if k1 = k then (k, v) else (k1, v1)) ::
        tl.map (fun p => if p.1 = k then (k, v) else p) := rfl

theorem lookupA_map_set_self {α : Type} (t : List (String × α)) (k : String) (v : α)
    (h : containsA t k = true) :
    lookupA (t.map (fun p => if p.1 = k then (k, v) else p)) k = some v := by
  induction t with
  | nil => simp [containsA, lookupA] at h
  | cons hd tl ih =>
      obtain ⟨k1, v1⟩ := hd
      rw [map_set_cons]
      by_cases hk : k1 = k
      · rw [if_pos hk]
        simp [lookupA]
      · rw [if_neg hk]
        simp only [lookupA, if_neg hk]
        apply ih
        simpa [containsA, lookupA, hk] using h

theorem lookupA_setA_self {α : Type} (t : List (String × α)) (k : String) (v : α) :
    lookupA (setA t k v) k = some v := by
  unfold setA
  by_cases h : containsA t k
  · simp [h]
    exact lookupA_map_set_self t k v h
  · simp [h]
    have hn : lookupA t k = none := by
      unfold containsA at h
      cases hh : lookupA t k with
      | none => rfl
      | some w => simp [hh] at h
    rw [lookupA_append_none _ hn]
    simp [lookupA]

theorem lookupA_map_set_ne {α : Type} (t : List (String × α)) (k q : String) (v : α)
    (h : q ≠ k) :
    lookupA (t.map (fun p => if p.1 = k then (k, v) else p)) q = lookupA t q := by
  induction t with
  | nil => simp [lookupA]
  | cons hd tl ih =>
      obtain ⟨k1, v1⟩ := hd
      rw [map_set_cons]
      by_cases hk : k1 = k
      · rw [if_pos hk]
        subst hk
        have hkq : ¬ k1 = q := fun hkq => h hkq.symm
        simp only [lookupA, if_neg hkq]
        exact ih
      · rw [if_neg hk]
        by_cases hq : k1 = q
        · simp only [lookupA, if_pos hq]
        · simp only [lookupA, if_neg hq]
          exact ih

theorem lookupA_setA_ne {α : Type} (t : List (String × α)) (k q : String) (v : α)
    (h : q ≠ k) :
    lookupA (setA t k v) q = lookupA t q := by
  unfold setA
  by_cases hc : containsA t k
  · simp [hc]
    exact lookupA_map_set_ne t k q v h
  · simp [hc]
    cases hq : lookupA t q with
    | none =>
        rw [lookupA_append_none _ hq]
        have hkq : ¬ k = q := fun hkq => h hkq.symm
        simp [lookupA, hkq]
    | some w => exact lookupA_append_some _ hq

theorem lookupA_ensureKey_ne {α : Type} (t : List (String × α)) (k q : String) (v : α)
    (h : q ≠ k) :
    lookupA (ensureKey t k v) q = lookupA t q := by
  unfold ensureKey
  by_cases hc : containsA t k
  · simp [hc]
  · simp [hc]
    cases hq : lookupA t q with
    | none =>
        rw [lookupA_append_none _ hq]
        have hkq : ¬ k = q := fun hkq => h hkq.symm
        simp [lookupA, hkq]
    | some w => exact lookupA_append_some _ hq

theorem containsA_setA {α : Type} (t : List (String × α)) (k q : String) (v : α) :
    containsA (setA t k v) q = (containsA t q || decide (q = k)) := by
  by_cases h : q = k
  · subst h
    simp [containsA, lookupA_setA_self]
  · simp [containsA, lookupA_setA_ne t k q v h, h]

theorem containsA_ensureKey {α : Type} (t : List (String × α)) (k : String) (v : α)
    (q : String) :
    containsA (ensureKey t k v) q = (containsA t q || decide (q = k)) := by
  by_cases h : q = k
  · subst h
    simp [containsA, lookupA_ensureKey_self]
  · simp [containsA, lookupA_ensureKey_ne t k q v h, h]

/-! ### Scan-loop lemmas -/

theorem scanLoop_found (ls : List String) (idx k : Nat) (h : k < ls.length) :
    scanLoop ((idx + k : Nat) : Int) ls idx = some (idx + k, ls.get ⟨k, h⟩) := by
  induction ls generalizing idx k with
  | nil => simp at h
  | cons l rest ih =>
      cases k with
      | zero => simp [scanLoop]
      | succ k' =>
          have hne : ((idx : Int) = ((idx + (k' + 1) : Nat) : Int)) = False := by
            simp
            omega
          simp only [scanLoop, hne, if_false]
          have harg : ((idx + (k' + 1) : Nat) : Int) = (((idx + 1) + k' : Nat) : Int) := by
            push_cast
            ring
          rw [harg]
          have h' : k' < rest.length := by simpa using Nat.lt_of_succ_lt_succ h
          rw [ih (idx + 1) k' h']
          have : (idx + 1) + k' = idx + (k' + 1) := by omega
          simp [this]

theorem scanLoop_none (ls : List String) (idx : Nat) (target : Int)
    (h : target < idx ∨ (idx + ls.length : Int) ≤ target) :
    scanLoop target ls idx = none := by
  induction ls generalizing idx with
  | nil => rfl
  | cons l rest ih =>
      have hne : ((idx : Int) = target) = False := by
        simp only [eq_iff_iff, iff_false]
        intro heq
        rcases h with h1 | h2
        · omega
        · simp at h2
          omega
      simp only [scanLoop, hne, if_false]
      apply ih
      rcases h with h1 | h2
      · left; omega
      · right
        simp at h2 ⊢
        omega

/-! ### Sequential-read lemmas for `RexxFunctions.linein` -/

/-- The cursor value a sequential read starts from: the stored last-read line
number, 0 when the key is absent. -/
def curOf (st : RexxFunctions.St) (p : String) : Nat :=
  (lookupA st.file_positions p).getD 0

/-- A sequential read whose cursor is strictly below the line count returns
the next line (newline-stripped) and advances the cursor by one. -/
theorem linein_seq_found (cfg : RexxFunctions.Config) (st : RexxFunctions.St)
    (fs : List (String × String)) (p content : String) (c : Nat)
    (hfs : lookupA fs p = some content) (hc : curOf st p = c)
    (h : c < (pyLines content).length) :
    RexxFunctions.linein cfg st fs p none false =
      (.ret (.line (rstripNL ((pyLines content).get ⟨c, h⟩))),
       ⟨setA (ensureKey st.file_positions p 0) p (c + 1), c + 1⟩, []) := by
  unfold curOf at hc
  have htl : (((lookupA (ensureKey st.file_positions p 0) p).getD 0 : Nat) : Int) + 1
      = ((c + 1 : Nat) : Int) := by
    rw [lookupA_ensureKey_self]
    simp [hc]
  have hscan := scanLoop_found (pyLines content) 1 c h
  rw [Nat.add_comm 1 c] at hscan
  simp only [RexxFunctions.linein, hfs, htl, hscan]

/-- A sequential read whose cursor has reached the line count hits EOF: with
`exit_on_eof = false` it returns the EOF sentinel and resets the cursor to 0. -/
theorem linein_seq_eof (cfg : RexxFunctions.Config) (st : RexxFunctions.St)
    (fs : List (String × String)) (p content : String)
    (hfs : lookupA fs p = some content)
    (hc : curOf st p = (pyLines content).length) :
    RexxFunctions.linein cfg st fs p none false =
      (.ret .eof,
       { st with file_positions := setA (ensureKey st.file_positions p 0) p 0 }, []) := by
  unfold curOf at hc
  have htl : (((lookupA (ensureKey st.file_positions p 0) p).getD 0 : Nat) : Int) + 1
      = (((pyLines content).length : Nat) : Int) + 1 := by
    rw [lookupA_ensureKey_self]
    simp [hc]
  have hscan : scanLoop ((((pyLines content).length : Nat) : Int) + 1)
      (pyLines content) 1 = none := by
    apply scanLoop_none
    right
    push_cast
    omega
  simp only [RexxFunctions.linein, hfs, htl, hscan, Bool.false_and, Bool.false_eq_true,
    if_false]

/-- Iterate `n` sequential reads (with `exit_on_eof = false`), collecting the
outcomes and threading the state. -/
def seqReads (cfg : RexxFunctions.Config) (fs : List (String × String))
    (p : String) : RexxFunctions.St → Nat →
    List (RexxFunctions.Outcome RexxFunctions.RRes) × RexxFunctions.St
  | st, 0 => ([], st)
  | st, Nat.succ n =>
      let r := RexxFunctions.linein cfg st fs p none false
      let rest := seqReads cfg fs p r.2.1 n
      (r.1 :: rest.1, rest.2)

/-- Running `d + 1` sequential reads from cursor `c` with `c + d` equal to the
line count returns the remaining lines in order followed by the EOF sentinel,
and leaves the cursor stored as 0. -/
theorem seqReads_spec (cfg : RexxFunctions.Config) (fs : List (String × String))
    (p content : String) (hfs : lookupA fs p = some content) :
    ∀ (d : Nat) (st : RexxFunctions.St) (c : Nat), curOf st p = c →
      c + d = (pyLines content).length →
      (seqReads cfg fs p st (d + 1)).1 =
        ((pyLines content).drop c).map
          (fun l => .ret (.line (rstripNL l))) ++ [.ret .eof]
      ∧ lookupA (seqReads cfg fs p st (d + 1)).2.file_positions p = some 0 := by
  intro d
  induction d with
  | zero =>
      intro st c hc hlen
      have hc' : curOf st p = (pyLines content).length := by omega
      have heof := linein_seq_eof cfg st fs p content hfs hc'
      constructor
      · simp [seqReads, heof]
        omega
      · simp [seqReads, heof, lookupA_setA_self]
  | succ d ih =>
      intro st c hc hlen
      have hlt : c < (pyLines content).length := by omega
      have hstep := linein_seq_found cfg st fs p content c hfs hc hlt
      have hc' : curOf ⟨setA (ensureKey st.file_positions p 0) p (c + 1), c + 1⟩ p
          = c + 1 := by
        unfold curOf
        simp [lookupA_setA_self]
      have hrec := ih ⟨setA (ensureKey st.file_positions p 0) p (c + 1), c + 1⟩ (c + 1)
        hc' (by omega)
      constructor
      · simp only [seqReads, hstep]
        rw [List.drop_eq_getElem_cons hlt]
        simp only [List.map_cons, List.cons_append]
        rw [show ((pyLines content).get ⟨c, hlt⟩ = (pyLines content)[c]) from rfl]
        exact congrArg _ hrec.1
      · simp only [seqReads, hstep]
        exact hrec.2

theorem get_zero_headD (l : List String) (h : 0 < l.length) :
    l.get ⟨0, h⟩ = l.headD "" := by
  cases l with
  | nil => simp at h
  | cons a t => rfl

/-- C2: for an existing file, with EOF configured to return a sentinel
(`exit_on_eof = false`) and the cursor at 0, N+1 sequential `linein` calls
return the N lines in order (newline-stripped) followed by the END_OF_FILE
sentinel; afterwards the stored cursor is 0, so the next sequential call
returns line 1 again. -/
theorem claim_C2 (cfg : RexxFunctions.Config) (st : RexxFunctions.St)
    (fs : List (String × String)) (p content : String)
    (hfs : lookupA fs p = some content) (h0 : curOf st p = 0) :
    (seqReads cfg fs p st ((pyLines content).length + 1)).1 =
      (pyLines content).map (fun l => .ret (.line (rstripNL l))) ++ [.ret .eof]
    ∧ lookupA (seqReads cfg fs p st
        ((pyLines content).length + 1)).2.file_positions p = some 0
    ∧ (0 < (pyLines content).length →
        (RexxFunctions.linein cfg (seqReads cfg fs p st
            ((pyLines content).length + 1)).2 fs p none false).1
          = .ret (.line (rstripNL ((pyLines content).headD "")))) := by
  have hmain := seqReads_spec cfg fs p content hfs ((pyLines content).length) st 0 h0
    (by omega)
  refine ⟨by simpa using hmain.1, hmain.2, ?_⟩
  intro hpos
  have hc0 : curOf (seqReads cfg fs p st ((pyLines content).length + 1)).2 p = 0 := by
    unfold curOf
    rw [hmain.2]
    rfl
  have hstep := linein_seq_found cfg _ fs p content 0 hfs hc0 hpos
  rw [hstep]
  rw [get_zero_headD _ hpos]

/-- Witness for C2 on the two-line file "a\nb\n". -/
theorem claim_C2_witness :
    lookupA [("f", "a\nb\n")] "f" = some "a\nb\n"
    ∧ curOf ⟨[], 0⟩ "f" = 0
    ∧ ((seqReads ⟨true, true⟩ [("f", "a\nb\n")] "f" ⟨[], 0⟩
          ((pyLines "a\nb\n").length + 1)).1 =
        (pyLines "a\nb\n").map (fun l => .ret (.line (rstripNL l))) ++ [.ret .eof]
      ∧ lookupA (seqReads ⟨true, true⟩ [("f", "a\nb\n")] "f" ⟨[], 0⟩
          ((pyLines "a\nb\n").length + 1)).2.file_positions "f" = some 0
      ∧ (0 < (pyLines "a\nb\n").length →
          (RexxFunctions.linein ⟨true, true⟩ (seqReads ⟨true, true⟩ [("f", "a\nb\n")]
              "f" ⟨[], 0⟩ ((pyLines "a\nb\n").length + 1)).2
            [("f", "a\nb\n")] "f" none false).1
            = .ret (.line (rstripNL ((pyLines "a\nb\n").headD ""))))) :=
  ⟨by decide, by decide,
   claim_C2 ⟨true, true⟩ ⟨[], 0⟩ [("f", "a\nb\n")] "f" "a\nb\n" (by decide) (by decide)⟩

/-- C1 (amended): a positional read of an existing file `p` first ensures a
cursor-table key for `p` (default 0) and then, when the requested line k
exists, stores k as the last-read line number; when k is past EOF the table
keeps every previously stored value (only the key insertion remains). -/
theorem claim_C1 (cfg : RexxFunctions.Config) (st : RexxFunctions.St)
    (fs : List (String × String)) (p content : String) (k : Nat) (eoe : Bool)
    (hfs : lookupA fs p = some content) (hk : 1 ≤ k) :
    (RexxFunctions.linein cfg st fs p (some (k : Int)) eoe).2.1.file_positions =
      (if k ≤ (pyLines content).length
       then setA (ensureKey st.file_positions p 0) p k
       else ensureKey st.file_positions p 0) := by
  by_cases hle : k ≤ (pyLines content).length
  · have h : k - 1 < (pyLines content).length := by omega
    have hscan := scanLoop_found (pyLines content) 1 (k - 1) h
    have h1 : 1 + (k - 1) = k := by omega
    rw [h1] at hscan
    simp only [RexxFunctions.linein, hfs, hscan, if_pos hle]
  · have hscan : scanLoop ((k : Nat) : Int) (pyLines content) 1 = none := by
      apply scanLoop_none
      right
      push_cast
      omega
    simp only [RexxFunctions.linein, hfs, hscan, if_neg hle]
    cases heb : (eoe && cfg.exit_on_error) <;> simp

/-- Witness for C1 (amended) at a found positional read. -/
theorem claim_C1_witness :
    lookupA [("f", "a\n")] "f" = some "a\n"
    ∧ 1 ≤ 1
    ∧ (RexxFunctions.linein ⟨true, true⟩ ⟨[], 0⟩ [("f", "a\n")] "f"
        (some ((1 : Nat) : Int)) true).2.1.file_positions =
      (if 1 ≤ (pyLines "a\n").length
       then setA (ensureKey ([] : List (String × Nat)) "f" 0) "f" 1
       else ensureKey ([] : List (String × Nat)) "f" 0) :=
  ⟨by decide, by decide,
   claim_C1 ⟨true, true⟩ ⟨[], 0⟩ [("f", "a\n")] "f" "a\n" 1 true (by decide) (by decide)⟩

/-- C1 counterexample: a positional read (line_number = 1) of an existing
file does change the cursor table: starting from the empty table it inserts
the key and stores last-read line 1. -/
theorem claim_C1_counterexample :
    (RexxFunctions.linein ⟨true, true⟩ ⟨[], 0⟩ [("f", "a\n")] "f"
        (some 1) true).2.1.file_positions = [("f", 1)]
    ∧ ([("f", 1)] : List (String × Nat)) ≠ [] := by
  constructor
  · decide
  · decide

/-! ### Trace semantics over the three file operations (for the cursor-table
invariant) -/

/-- One client call against a `RexxFunctions` instance. -/
inductive Op where
  | rdLine (p : String) (ln : Option Int) (eoe : Bool)
  | wrLine (p s : String) (append : Bool)
  | rmFile (p : String)

/-- Instance state plus filesystem state. -/
structure World where
  st : RexxFunctions.St
  fs : List (String × String)

/-- Whether an outcome is a process termination. -/
def isExit {α : Type} : RexxFunctions.Outcome α → Bool
  | .exit _ => true
  | .ret _ => false

/-- Execute one operation; the Bool reports whether the process exited. -/
def stepOp (cfg : RexxFunctions.Config) (ro : List String) (w : World) :
    Op → Bool × World
  | .rdLine p ln eoe =>
      let r := RexxFunctions.linein cfg w.st w.fs p ln eoe
      (isExit r.1, { w with st := r.2.1 })
  | .wrLine p s a =>
      let r := RexxFunctions.lineout cfg w.fs ro p s a
      (isExit r.1, { w with fs := r.2.1 })
  | .rmFile p =>
      let r := RexxFunctions.rm cfg w.fs ro p
      (isExit r.1, { w with fs := r.2.1 })

/-- Run a list of operations, stopping when a call terminates the process. -/
def runOps (cfg : RexxFunctions.Config) (ro : List String) :
    World → List Op → World
  | w, [] => w
  | w, op :: rest =>
      let r := stepOp cfg ro w op
      if r.1 then r.2 else runOps cfg ro r.2 rest

/-- Whether a single operation is a `linein` call on path `p` made while `p`
exists as a regular file. -/
def liHit (w : World) (op : Op) (p : String) : Bool :=
  match op with
  | .rdLine q _ _ => decide (q = p) && (lookupA w.fs q).isSome
  | _ => false

/-- Whether some operation of the trace (up to a terminating call) is a
`linein` call on path `p` made while `p` exists. -/
def liAccessed (cfg : RexxFunctions.Config) (ro : List String) :
    World → List Op → String → Bool
  | _, [], _ => false
  | w, op :: rest, p =>
      let r := stepOp cfg ro w op
      if r.1 then liHit w op p
      else liHit w op p || liAccessed cfg ro r.2 rest p

theorem decide_eq_swap (p q : String) : decide (p = q) = decide (q = p) := by
  simp [eq_comm]

/-- Effect of one operation on cursor-table key membership: a key becomes (or
stays) present exactly when it was present before or the operation is a
`linein` on that path while the path exists. -/
theorem containsA_stepOp (cfg : RexxFunctions.Config) (ro : List String)
    (w : World) (op : Op) (p : String) :
    containsA (stepOp cfg ro w op).2.st.file_positions p =
      (containsA w.st.file_positions p || liHit w op p) := by
  cases op with
  | wrLine q s a => simp [stepOp, liHit]
  | rmFile q => simp [stepOp, liHit]
  | rdLine q ln eoe =>
      cases hfs : lookupA w.fs q with
      | none =>
          simp only [stepOp, RexxFunctions.linein, hfs, liHit, Option.isSome_none,
            Bool.and_false, Bool.or_false]
          cases cfg.exit_on_error <;> simp
      | some content =>
          simp only [liHit, hfs, Option.isSome_some, Bool.and_true]
          cases ln with
          | none =>
              cases hscan : scanLoop
                  ((((lookupA (ensureKey w.st.file_positions q 0) q).getD 0 : Nat) : Int) + 1)
                  (pyLines content) 1 with
              | some r =>
                  obtain ⟨cl, cc⟩ := r
                  simp only [stepOp, RexxFunctions.linein, hfs, hscan]
                  simp [containsA_setA, containsA_ensureKey, decide_eq_swap p q,
                    Bool.or_assoc]
              | none =>
                  simp only [stepOp, RexxFunctions.linein, hfs, hscan]
                  cases heb : (eoe && cfg.exit_on_error) <;>
                    simp [containsA_setA, containsA_ensureKey, decide_eq_swap p q,
                      Bool.or_assoc]
          | some k =>
              cases hscan : scanLoop k (pyLines content) 1 with
              | some r =>
                  obtain ⟨cl, cc⟩ := r
                  simp only [stepOp, RexxFunctions.linein, hfs, hscan]
                  simp [containsA_setA, containsA_ensureKey, decide_eq_swap p q,
                    Bool.or_assoc]
              | none =>
                  simp only [stepOp, RexxFunctions.linein, hfs, hscan]
                  cases heb : (eoe && cfg.exit_on_error) <;>
                    simp [containsA_ensureKey, decide_eq_swap p q]

/-- Key membership after a whole trace: present afterwards iff present before
or some `linein` call of the trace touched the path while it existed. -/
theorem runOps_contains (cfg : RexxFunctions.Config) (ro : List String) :
    ∀ (ops : List Op) (w : World) (p : String),
      containsA (runOps cfg ro w ops).st.file_positions p =
        (containsA w.st.file_positions p || liAccessed cfg ro w ops p) := by
  intro ops
  induction ops with
  | nil => intro w p; simp [runOps, liAccessed]
  | cons op rest ih =>
      intro w p
      cases hr : (stepOp cfg ro w op).1 with
      | true =>
          simp only [runOps, liAccessed, hr, if_true]
          exact containsA_stepOp cfg ro w op p
      | false =>
          simp only [runOps, liAccessed, hr, Bool.false_eq_true, if_false]
          rw [ih, containsA_stepOp cfg ro w op p, Bool.or_assoc]

/-- C3 (amended): starting from a fresh (empty) cursor table, after any trace
of `linein` / `lineout` / `rm` calls a key is present in the table iff some
`linein` call of the trace — sequential or positional — named that path while
it existed as a regular file. -/
theorem claim_C3 (cfg : RexxFunctions.Config) (ro : List String)
    (fs : List (String × String)) (ops : List Op) (p : String) :
    containsA (runOps cfg ro ⟨⟨[], 0⟩, fs⟩ ops).st.file_positions p =
      liAccessed cfg ro ⟨⟨[], 0⟩, fs⟩ ops p := by
  rw [runOps_contains]
  rfl

/-- C3 counterexample: a trace consisting of one purely positional read of an
existing file does make the file's key present in the cursor table. -/
theorem claim_C3_counterexample :
    containsA (runOps ⟨true, true⟩ [] ⟨⟨[], 0⟩, [("f", "a\n")]⟩
        [Op.rdLine "f" (some 1) true]).st.file_positions "f" = true := by
  decide

/-- C4 (amended): for every explicit line number ≤ 0 on an existing file, the
old implementation (RexxFunctions_old2.py / linein.py) raises ValueError
(leaving the table with only the key insertion), while RexxFunctions.py's
`linein` does not validate the argument: it behaves as a read past EOF,
terminating successfully when both EOF-exit switches are on and otherwise
returning the END_OF_FILE sentinel. -/
theorem claim_C4 (t : List (String × Nat)) (st : RexxFunctions.St)
    (cfg : RexxFunctions.Config) (fs : List (String × String))
    (p content : String) (k : Nat) (eoe : Bool) :
    (RexxFunctionsOld2.linein t ((p, content) :: fs) p (some (-(k : Int)))).1
      = .valueError
    ∧ (RexxFunctionsOld2.linein t ((p, content) :: fs) p (some (-(k : Int)))).2.1
      = ensureKey t p 0
    ∧ (RexxFunctions.linein cfg st ((p, content) :: fs) p (some (-(k : Int))) eoe).1
      = (if eoe && cfg.exit_on_error then .exit 0 else .ret .eof) := by
  have hneg : (-(k : Int) < 1) = True := by
    simp only [eq_iff_iff, iff_true]
    omega
  have hfs : lookupA ((p, content) :: fs) p = some content := lookupA_cons_self p content fs
  have hscan : scanLoop (-(k : Int)) (pyLines content) 1 = none := by
    apply scanLoop_none
    left
    omega
  refine ⟨?_, ?_, ?_⟩
  · simp only [RexxFunctionsOld2.linein, hneg, if_true]
  · simp only [RexxFunctionsOld2.linein, hneg, if_true]
  · simp only [RexxFunctions.linein, hfs, hscan]
    cases heb : (eoe && cfg.exit_on_error) <;> simp

/-- C4 counterexample: with termination disabled, calling RexxFunctions.py's
`linein` with line_number = 0 on an existing readable file returns the
ordinary END_OF_FILE read result instead of signaling a usage error. -/
theorem claim_C4_counterexample :
    (RexxFunctions.linein ⟨false, false⟩ ⟨[], 0⟩ [("f", "a\n")] "f"
        (some 0) false).1 = .ret .eof := by
  decide

/-- C5: the EOF-termination switch is not effective independently of
`exit_on_error`.  On a sequential read past EOF with `exit_on_eof = true`:
with `exit_on_error = False` the call returns the END_OF_FILE sentinel
instead of terminating, while with `exit_on_error = True` it terminates with
the success status 0 — contradicting the claimed orthogonality (and the
method's own docstring, which promises an exit on EOF whenever
`exit_on_eof` is true). -/
theorem claim_C5 :
    (RexxFunctions.linein ⟨false, true⟩ ⟨[("f", 1)], 1⟩ [("f", "a\n")] "f"
        none true).1 = .ret .eof
    ∧ (RexxFunctions.linein ⟨true, true⟩ ⟨[("f", 1)], 1⟩ [("f", "a\n")] "f"
        none true).1 = .exit 0 := by
  constructor
  · decide
  · decide

/-- C6 (amended): the two stateful line-reader implementations are not
extensionally equal: a positional found read updates the cursor in
RexxFunctions.py but not in the old implementation (so a subsequent
sequential read returns different lines), and a not-found file terminates
the process in RexxFunctions.py's default configuration while the old
implementation prints and returns the FILE_NOT_FOUND sentinel. -/
theorem claim_C6 :
    (RexxFunctions.linein ⟨true, true⟩ ⟨[], 0⟩ [("f", "a\nb\n")] "f"
        (some 1) true).2.1.file_positions = [("f", 1)]
    ∧ (RexxFunctionsOld2.linein [] [("f", "a\nb\n")] "f" (some 1)).2.1 = [("f", 0)]
    ∧ (RexxFunctions.linein ⟨true, true⟩ ⟨[("f", 1)], 1⟩ [("f", "a\nb\n")] "f"
        none true).1 = .ret (.line "b")
    ∧ (RexxFunctionsOld2.linein [("f", 0)] [("f", "a\nb\n")] "f" none).1 = .line "a"
    ∧ (RexxFunctions.linein ⟨true, true⟩ ⟨[], 0⟩ [] "g" none true).1 = .exit 1
    ∧ (RexxFunctionsOld2.linein [] [] "g" none).1 = .notFound := by
  refine ⟨by decide, by decide, by decide, by decide, by decide, by decide⟩

/-- For every starting table, filesystem, path and positional line number
past the end of the file, both implementations leave the cursor table in
exactly the same state — the key insertion with default 0 — so neither resets
a stored cursor on a positional read past EOF. -/
theorem c6_positional_eof_agree (t : List (String × Nat))
    (st : RexxFunctions.St) (cfg : RexxFunctions.Config)
    (fs : List (String × String)) (p content : String) (k : Nat) (eoe : Bool) :
    (RexxFunctions.linein cfg st ((p, content) :: fs) p
        (some (((pyLines content).length + 1 + k : Nat) : Int)) eoe).2.1.file_positions
      = ensureKey st.file_positions p 0
    ∧ (RexxFunctionsOld2.linein t ((p, content) :: fs) p
        (some (((pyLines content).length + 1 + k : Nat) : Int))).2.1
      = ensureKey t p 0 := by
  have hfs : lookupA ((p, content) :: fs) p = some content := lookupA_cons_self p content fs
  have hscan : scanLoop (((pyLines content).length + 1 + k : Nat) : Int)
      (pyLines content) 1 = none := by
    apply scanLoop_none
    right
    push_cast
    omega
  have hge : ((((pyLines content).length + 1 + k : Nat) : Int) < 1) = False := by
    simp only [eq_iff_iff, iff_false, not_lt]
    push_cast
    omega
  constructor
  · simp only [RexxFunctions.linein, hfs, hscan]
    cases heb : (eoe && cfg.exit_on_error) <;> simp
  · simp only [RexxFunctionsOld2.linein, hge, if_false, hfs, hscan]

/-- C6 counterexample (refuting the claimed disagreement on
EOF-reset-on-positional-read): the cursor-table transformers of the two
implementations on positional reads past end of file are extensionally equal
— each is exactly the key insertion with default 0, for every state, file,
path and past-EOF line number — so no input makes them disagree on whether
the cursor is reset there. -/
theorem claim_C6_counterexample :
    (fun (st : RexxFunctions.St) (cfg : RexxFunctions.Config)
         (fs : List (String × String)) (p content : String) (k : Nat) (eoe : Bool) =>
       (RexxFunctions.linein cfg st ((p, content) :: fs) p
           (some (((pyLines content).length + 1 + k : Nat) : Int)) eoe).2.1.file_positions)
      = (fun st _cfg _fs p _content _k _eoe => ensureKey st.file_positions p 0)
    ∧ (fun (t : List (String × Nat)) (fs : List (String × String))
         (p content : String) (k : Nat) =>
         (RexxFunctionsOld2.linein t ((p, content) :: fs) p
             (some (((pyLines content).length + 1 + k : Nat) : Int))).2.1)
      = (fun t _fs p _content _k => ensureKey t p 0) := by
  constructor
  · funext st cfg fs p content k eoe
    exact (c6_positional_eof_agree [] st cfg fs p content k eoe).1
  · funext t fs p content k
    exact (c6_positional_eof_agree t ⟨[], 0⟩ ⟨true, true⟩ fs p content k true).2

/-- C7: the verbose switch never changes the returned outcome (including
termination) or the resulting state of `linein`, `lineout`, or `rm`; it only
controls the diagnostic messages. -/
theorem claim_C7 (er : Bool) (st : RexxFunctions.St) (fs : List (String × String))
    (ro : List String) (p : String) (ln : Option Int) (eoe : Bool)
    (q s : String) (app : Bool) (rp : String) :
    ((RexxFunctions.linein ⟨er, true⟩ st fs p ln eoe).1
        = (RexxFunctions.linein ⟨er, false⟩ st fs p ln eoe).1
      ∧ (RexxFunctions.linein ⟨er, true⟩ st fs p ln eoe).2.1
        = (RexxFunctions.linein ⟨er, false⟩ st fs p ln eoe).2.1)
    ∧ ((RexxFunctions.lineout ⟨er, true⟩ fs ro q s app).1
        = (RexxFunctions.lineout ⟨er, false⟩ fs ro q s app).1
      ∧ (RexxFunctions.lineout ⟨er, true⟩ fs ro q s app).2.1
        = (RexxFunctions.lineout ⟨er, false⟩ fs ro q s app).2.1)
    ∧ ((RexxFunctions.rm ⟨er, true⟩ fs ro rp).1
        = (RexxFunctions.rm ⟨er, false⟩ fs ro rp).1
      ∧ (RexxFunctions.rm ⟨er, true⟩ fs ro rp).2.1
        = (RexxFunctions.rm ⟨er, false⟩ fs ro rp).2.1) := by
  refine ⟨⟨?_, ?_⟩, ⟨?_, ?_⟩, ⟨?_, ?_⟩⟩
  · cases hfs : lookupA fs p with
    | none => simp only [RexxFunctions.linein, hfs]; cases er <;> simp
    | some content => simp only [RexxFunctions.linein, hfs]
  · cases hfs : lookupA fs p with
    | none => simp only [RexxFunctions.linein, hfs]; cases er <;> simp
    | some content => simp only [RexxFunctions.linein, hfs]
  · cases hro : ro.contains q with
    | true => simp only [RexxFunctions.lineout, hro, if_true]; cases er <;> simp
    | false => simp only [RexxFunctions.lineout, hro, Bool.false_eq_true, if_false]
  · cases hro : ro.contains q with
    | true => simp only [RexxFunctions.lineout, hro, if_true]; cases er <;> simp
    | false => simp only [RexxFunctions.lineout, hro, Bool.false_eq_true, if_false]
  · cases hfs : lookupA fs rp with
    | none => simp [RexxFunctions.rm, hfs]
    | some content =>
        cases hro : ro.contains rp with
        | true => simp only [RexxFunctions.rm, hfs, hro, if_true]; cases er <;> simp
        | false => simp only [RexxFunctions.rm, hfs, hro, Bool.false_eq_true, if_false]
  · cases hfs : lookupA fs rp with
    | none => simp [RexxFunctions.rm, hfs]
    | some content =>
        cases hro : ro.contains rp with
        | true => simp only [RexxFunctions.rm, hfs, hro, if_true]; cases er <;> simp
        | false => simp only [RexxFunctions.rm, hfs, hro, Bool.false_eq_true, if_false]

/-! ### Round-trip lemmas (C8) -/

theorem pyLinesAux_no_nl (cs : List Char) (h : ∀ ch ∈ cs, ch ≠ '\n') :
    ∀ acc : List Char, pyLinesAux (cs ++ ['\n']) acc = [acc.reverse ++ cs ++ ['\n']] := by
  induction cs with
  | nil => intro acc; simp [pyLinesAux]
  | cons c cs ih =>
      intro acc
      have hc : ¬ c = '\n' := h c (by simp)
      simp only [List.cons_append, pyLinesAux, if_neg hc]
      show pyLinesAux (cs ++ ['\n']) (c :: acc) = _
      rw [ih (fun ch hch => h ch (by simp [hch])) (c :: acc)]
      simp

/-- A single newline-free record followed by the newline terminator is read
back as exactly one line. -/
theorem pyLines_single (c : String) (h : ∀ ch ∈ c.data, ch ≠ '\n') :
    pyLines (c ++ "\n") = [c ++ "\n"] := by
  have hdata : (c ++ "\n").data = c.data ++ ['\n'] := by
    rw [String.data_append]
  unfold pyLines
  rw [hdata, pyLinesAux_no_nl c.data h []]
  simp only [List.reverse_nil, List.nil_append, List.map_cons, List.map_nil]
  congr 1

theorem rstripNL_no_nl (c : String) (h : ∀ ch ∈ c.data, ch ≠ '\n') :
    rstripNL (c ++ "\n") = c := by
  apply String.ext
  show ((c ++ "\n").data.reverse.dropWhile (fun ch => ch = '\n')).reverse = c.data
  rw [String.data_append]
  rw [show (("\n" : String).data = ['\n']) from rfl]
  have hrev : (c.data ++ ['\n']).reverse = '\n' :: c.data.reverse := by simp
  rw [hrev, List.dropWhile_cons]
  simp only [decide_eq_true_eq, if_pos rfl]
  cases hr : c.data.reverse with
  | nil =>
      have : c.data = [] := by
        have := congrArg List.reverse hr
        simpa using this
      simp [this]
  | cons a t =>
      have ha : a ∈ c.data := by
        have : a ∈ c.data.reverse := by rw [hr]; simp
        exact List.mem_reverse.mp this
      have ha' : ¬ (a = '\n') := h a ha
      rw [List.dropWhile_cons]
      simp only [decide_eq_true_eq, if_neg ha']
      have := congrArg List.reverse hr
      simpa using this.symm

/-- C8: writing a newline-free record with `lineout` (truncate mode) to a
writable path and then reading line 1 with `linein` returns exactly that
record. -/
theorem claim_C8 (cfg cfg2 : RexxFunctions.Config) (st : RexxFunctions.St)
    (fs : List (String × String)) (ro : List String) (p c : String) (eoe : Bool)
    (hro : ro.contains p = false) (hc : ∀ ch ∈ c.data, ch ≠ '\n') :
    (RexxFunctions.linein cfg2 st
        (RexxFunctions.lineout cfg fs ro p c false).2.1 p (some 1) eoe).1
      = .ret (.line c) := by
  have hemp : ("" : String) ++ c = c := by
    apply String.ext
    rw [String.data_append]
    rfl
  have hfs' : (RexxFunctions.lineout cfg fs ro p c false).2.1 = setA fs p (c ++ "\n") := by
    simp only [RexxFunctions.lineout, hro, Bool.false_eq_true, if_false, hemp]
  rw [hfs']
  have hlk : lookupA (setA fs p (c ++ "\n")) p = some (c ++ "\n") :=
    lookupA_setA_self fs p (c ++ "\n")
  have hpl := pyLines_single c hc
  have hscan : scanLoop (1 : Int) [c ++ "\n"] 1 = some (1, c ++ "\n") := by
    simp [scanLoop]
  simp only [RexxFunctions.linein, hlk, hpl, hscan]
  rw [rstripNL_no_nl c hc]

/-- Witness for C8: write "abc" then read line 1 back. -/
theorem claim_C8_witness :
    (([] : List String).contains "f" = false)
    ∧ (∀ ch ∈ ("abc" : String).data, ch ≠ '\n')
    ∧ (RexxFunctions.linein ⟨true, true⟩ ⟨[], 0⟩
        (RexxFunctions.lineout ⟨true, true⟩ [] [] "f" "abc" false).2.1 "f"
        (some 1) true).1 = .ret (.line "abc") :=
  ⟨by decide, by decide,
   claim_C8 ⟨true, true⟩ ⟨true, true⟩ ⟨[], 0⟩ [] [] "f" "abc" true (by decide) (by decide)⟩

/-! ### Slice lemmas and the string-function claims (C9, C10) -/

theorem take_min_len {α : Type} (l : List α) (a : Nat) :
    l.take (min a l.length) = l.take a := by
  rcases Nat.le_total a l.length with h | h
  · rw [min_eq_left h]
  · rw [min_eq_right h, List.take_of_length_le (le_refl _), List.take_of_length_le h]

theorem drop_min_len {α : Type} (l : List α) (a : Nat) :
    l.drop (min a l.length) = l.drop a := by
  rcases Nat.le_total a l.length with h | h
  · rw [min_eq_left h]
  · rw [min_eq_right h, List.drop_eq_nil_of_le (le_refl _), List.drop_eq_nil_of_le h]

theorem pyIdx_nonneg (n : Nat) (i : Int) (h : 0 ≤ i) :
    pyIdx n i = min i.toNat n := by
  unfold pyIdx
  rw [if_neg (by omega)]
  show (min i (n : Int)).toNat = min i.toNat n
  rcases le_or_lt i (n : Int) with h2 | h2
  · rw [min_eq_left h2, min_eq_left (by omega)]
  · rw [min_eq_right (le_of_lt h2), min_eq_right (by omega)]
    omega

theorem pySliceTo_take (s : String) (a : Int) (h : 0 ≤ a) :
    pySliceTo s a = ⟨s.data.take a.toNat⟩ := by
  unfold pySliceTo
  rw [pyIdx_nonneg _ _ h, take_min_len]

theorem pySliceFrom_drop (s : String) (a : Int) (h : 0 ≤ a) :
    pySliceFrom s a = ⟨s.data.drop a.toNat⟩ := by
  unfold pySliceFrom
  rw [pyIdx_nonneg _ _ h, drop_min_len]

/-- C9: `insert` places the new string before the 1-based position, with
positions below 1 clamped to 1; in particular the spec's example holds. -/
theorem claim_C9 (new_str s : String) (pos : Int) :
    RexxFunctions.insert new_str s pos =
      ⟨s.data.take (max pos 1 - 1).toNat ++ new_str.data ++
        s.data.drop (max pos 1 - 1).toNat⟩
    ∧ RexxFunctions.insert "_0000" "file.txt" 5 = "file_0000.txt" := by
  constructor
  · have hm : (if pos < 1 then 1 else pos) = max pos 1 := by
      rcases lt_or_le pos 1 with h | h
      · rw [if_pos h, max_eq_right (le_of_lt h)]
      · rw [if_neg (not_lt.mpr h), max_eq_left h]
    have h0 : (0 : Int) ≤ max pos 1 - 1 := by
      have := le_max_right pos 1
      omega
    simp only [RexxFunctions.insert, hm]
    rw [pySliceTo_take _ _ h0, pySliceFrom_drop _ _ h0]
    apply String.ext
    simp [String.data_append]
  · decide

/-- C10: an explicit length of 0 is falsy in Python, so `substr(s, start, 0)`
returns the suffix from `start` (same as omitting length, not the empty
string) and `delstr(s, start, 0)` deletes from `start` to the end (same as
omitting length, not zero characters). -/
theorem claim_C10 (s : String) (start : Int) (h1 : 1 ≤ start)
    (h2 : start ≤ (s.data.length : Int)) :
    RexxFunctions.substr s start (some 0) = .ok ⟨s.data.drop (start - 1).toNat⟩
    ∧ RexxFunctions.substr s start (some 0) = RexxFunctions.substr s start none
    ∧ (⟨s.data.drop (start - 1).toNat⟩ : String) ≠ ""
    ∧ RexxFunctions.delstr s start (some 0) = .ok ⟨s.data.take (start - 1).toNat⟩
    ∧ RexxFunctions.delstr s start (some 0) = RexxFunctions.delstr s start none := by
  have hnl : ¬ start < 1 := by omega
  have h0 : (0 : Int) ≤ start - 1 := by omega
  have hfrom := pySliceFrom_drop s (start - 1) h0
  have hto := pySliceTo_take s (start - 1) h0
  refine ⟨?_, ?_, ?_, ?_, ?_⟩
  · simp only [RexxFunctions.substr, if_neg hnl, pyTruthyInt]
    simp [hfrom]
  · simp only [RexxFunctions.substr, if_neg hnl, pyTruthyInt]
    simp
  · intro heq
    have hdata := congrArg String.data heq
    have hlen := congrArg List.length hdata
    simp only [List.length_drop] at hlen
    rw [show ((("" : String).data).length = 0) from rfl] at hlen
    omega
  · simp only [RexxFunctions.delstr, if_neg hnl, pyTruthyInt]
    simp [hto]
  · simp only [RexxFunctions.delstr, if_neg hnl, pyTruthyInt]
    simp

/-- Witness for C10 on s = "HELLO", start = 2. -/
theorem claim_C10_witness :
    ((1 : Int) ≤ 2)
    ∧ ((2 : Int) ≤ (("HELLO" : String).data.length : Int))
    ∧ (RexxFunctions.substr "HELLO" 2 (some 0)
        = .ok ⟨("HELLO" : String).data.drop ((2 : Int) - 1).toNat⟩
      ∧ RexxFunctions.substr "HELLO" 2 (some 0) = RexxFunctions.substr "HELLO" 2 none
      ∧ (⟨("HELLO" : String).data.drop ((2 : Int) - 1).toNat⟩ : String) ≠ ""
      ∧ RexxFunctions.delstr "HELLO" 2 (some 0)
        = .ok ⟨("HELLO" : String).data.take ((2 : Int) - 1).toNat⟩
      ∧ RexxFunctions.delstr "HELLO" 2 (some 0) = RexxFunctions.delstr "HELLO" 2 none) :=
  ⟨by decide, by decide, claim_C10 "HELLO" 2 (by decide) (by decide)⟩
